import Mathlib

/-!
Verification of the character-frequency reporting tool `stats.py`.

The development shallow-embeds the counting-and-ranking pipeline of the
program: token aggregation (`collections.Counter`), the `most_common`
truncation, the final key sort, the tie-aware rank numbering loop, the
report rendering and routing, the whitespace-stripping preprocessing of
`file_statistics`, the path-traversal loop of `main`, and the exit
behaviour of `parse_args`.

Python's `list.sort` and `Counter.most_common` are stable sorts; a stable
sort is uniquely determined by its comparator and the input order, so they
are embedded here as a structurally recursive stable insertion sort
(`pySort`), which the kernel can evaluate on concrete inputs.  Python
string comparison is lexicographic on code points and is embedded as
`pyStrLe`/`pyStrLt` on the underlying character lists.
-/

namespace Stats

/-! ### Python string comparison (code-point lexicographic) -/

/-- Python `<=` on strings, on the underlying character lists:
lexicographic by code point. -/
def pyListLe : List Char → List Char → Bool
  | [], _ => true
  | _ :: _, [] => false
  | a :: as, b :: bs =>
    if a.toNat < b.toNat then true
    else if b.toNat < a.toNat then false
    else pyListLe as bs

/-- Python `<` on strings, on the underlying character lists. -/
def pyListLt : List Char → List Char → Bool
  | [], [] => false
  | [], _ :: _ => true
  | _ :: _, [] => false
  | a :: as, b :: bs =>
    if a.toNat < b.toNat then true
    else if b.toNat < a.toNat then false
    else pyListLt as bs

/-- Python `<=` on strings. -/
def pyStrLe (a b : String) : Bool := pyListLe a.data b.data

/-- Python `<` on strings. -/
def pyStrLt (a b : String) : Bool := pyListLt a.data b.data

theorem pyListLe_total : ∀ a b, pyListLe a b = true ∨ pyListLe b a = true := by
  intro a
  induction a with
  | nil => intro b; left; cases b <;> rfl
  | cons x as ih =>
    intro b
    cases b with
    | nil => right; rfl
    | cons y bs =>
      by_cases h1 : x.toNat < y.toNat
      · left; simp [pyListLe, h1]
      · by_cases h2 : y.toNat < x.toNat
        · right; simp [pyListLe, h2]
        · rcases ih bs with h | h
          · left; simp [pyListLe, h1, h2, h]
          · right; simp [pyListLe, h1, h2, h]

theorem pyListLe_trans :
    ∀ a b c, pyListLe a b = true → pyListLe b c = true → pyListLe a c = true := by
  intro a
  induction a with
  | nil => intro b c _ _; cases c <;> rfl
  | cons x as ih =>
    intro b c hab hbc
    cases b with
    | nil => simp [pyListLe] at hab
    | cons y bs =>
      cases c with
      | nil => simp [pyListLe] at hbc
      | cons z cs =>
        simp only [pyListLe] at hab hbc ⊢
        by_cases h1 : x.toNat < y.toNat
        · by_cases h2 : y.toNat < z.toNat
          · have : x.toNat < z.toNat := Nat.lt_trans h1 h2
            simp [this]
          · by_cases h3 : z.toNat < y.toNat
            · simp [h2, h3] at hbc
            · have hyz : y.toNat = z.toNat := Nat.le_antisymm (Nat.le_of_not_lt h3) (Nat.le_of_not_lt h2)
              have : x.toNat < z.toNat := hyz ▸ h1
              simp [this]
        · by_cases h2 : y.toNat < x.toNat
          · simp [h1, h2] at hab
          · have hxy : x.toNat = y.toNat := Nat.le_antisymm (Nat.le_of_not_lt h2) (Nat.le_of_not_lt h1)
            simp only [if_neg h1, if_neg h2] at hab
            by_cases h3 : y.toNat < z.toNat
            · have : x.toNat < z.toNat := hxy ▸ h3
              simp [this]
            · by_cases h4 : z.toNat < y.toNat
              · simp [h3, h4] at hbc
              · have hyz : y.toNat = z.toNat := Nat.le_antisymm (Nat.le_of_not_lt h4) (Nat.le_of_not_lt h3)
                have hxz : x.toNat = z.toNat := hxy.trans hyz
                have h5 : ¬ x.toNat < z.toNat := by omega
                have h6 : ¬ z.toNat < x.toNat := by omega
                simp only [if_neg h3, if_neg h4] at hbc
                simp only [if_neg h5, if_neg h6]
                exact ih bs cs hab hbc

theorem char_eq_of_toNat_eq {a b : Char} (h : a.toNat = b.toNat) : a = b :=
  Char.eq_of_val_eq (UInt32.toNat.inj h)

theorem pyListLe_antisymm :
    ∀ a b, pyListLe a b = true → pyListLe b a = true → a = b := by
  intro a
  induction a with
  | nil => intro b _ hba; cases b with
    | nil => rfl
    | cons y bs => simp [pyListLe] at hba
  | cons x as ih =>
    intro b hab hba
    cases b with
    | nil => simp [pyListLe] at hab
    | cons y bs =>
      simp only [pyListLe] at hab hba
      by_cases h1 : x.toNat < y.toNat
      · have h2 : ¬ y.toNat < x.toNat := by omega
        simp [h1, h2] at hba
      · by_cases h2 : y.toNat < x.toNat
        · simp [h1, h2] at hab
        · have hxy : x = y := char_eq_of_toNat_eq (by omega)
          simp only [if_neg h1, if_neg h2] at hab hba
          rw [hxy, ih bs hab hba]

theorem pyListLt_of_le_of_ne :
    ∀ a b, pyListLe a b = true → a ≠ b → pyListLt a b = true := by
  intro a
  induction a with
  | nil => intro b _ hne; cases b with
    | nil => exact absurd rfl hne
    | cons y bs => rfl
  | cons x as ih =>
    intro b hab hne
    cases b with
    | nil => simp [pyListLe] at hab
    | cons y bs =>
      simp only [pyListLe] at hab
      simp only [pyListLt]
      by_cases h1 : x.toNat < y.toNat
      · simp [h1]
      · by_cases h2 : y.toNat < x.toNat
        · simp [h1, h2] at hab
        · have hxy : x = y := char_eq_of_toNat_eq (by omega)
          simp only [if_neg h1, if_neg h2] at hab ⊢
          apply ih bs hab
          intro hcontra
          exact hne (by rw [hxy, hcontra])

/-! ### Stable sorting (Python `list.sort` / `sorted`) -/

/-- Insert `a` into `l` before the first element `b` with `le a b = true`.
Used by `pySort`; placing the inserted (earlier-in-input) element before
elements that tie with it is what makes the sort stable. -/
def insort {α : Type} (le : α → α → Bool) (a : α) : List α → List α
  | [] => [a]
  | b :: l => if le a b then a :: b :: l else b :: insort le a l

/-- Stable insertion sort.  Python's `list.sort` and `sorted` are stable
sorts; for a total transitive comparator a stable sort's output is uniquely
determined by the comparator and the input order, so this function is the
embedding of Python sorting. -/
def pySort {α : Type} (le : α → α → Bool) : List α → List α
  | [] => []
  | a :: l => insort le a (pySort le l)

theorem insort_perm {α : Type} (le : α → α → Bool) (a : α) :
    ∀ l : List α, List.Perm (insort le a l) (a :: l) := by
  intro l
  induction l with
  | nil => simp [insort]
  | cons b l ih =>
    simp only [insort]
    by_cases h : le a b
    · simp [h]
    · simp only [h, if_neg, ite_false]
      exact (List.Perm.cons b ih).trans (List.Perm.swap a b l)

theorem pySort_perm {α : Type} (le : α → α → Bool) :
    ∀ l : List α, List.Perm (pySort le l) l := by
  intro l
  induction l with
  | nil => simp [pySort]
  | cons a l ih =>
    simp only [pySort]
    exact (insort_perm le a (pySort le l)).trans (List.Perm.cons a ih)

theorem insort_pairwise {α : Type} (le : α → α → Bool)
    (trans : ∀ a b c, le a b = true → le b c = true → le a c = true)
    (total : ∀ a b, le a b = true ∨ le b a = true)
    (a : α) :
    ∀ l : List α, List.Pairwise (fun x y => le x y = true) l →
      List.Pairwise (fun x y => le x y = true) (insort le a l) := by
  intro l
  induction l with
  | nil => intro _; simp [insort]
  | cons b l ih =>
    intro hp
    rcases List.pairwise_cons.mp hp with ⟨hb, hl⟩
    simp only [insort]
    by_cases h : le a b
    · simp only [h, if_pos, ite_true]
      refine List.pairwise_cons.mpr ⟨?_, hp⟩
      intro x hx
      rcases List.mem_cons.mp hx with hxb | hx
      · rw [hxb]; exact h
      · exact trans a b x h (hb x hx)
    · simp only [h, if_neg, ite_false]
      refine List.pairwise_cons.mpr ⟨?_, ih hl⟩
      intro x hx
      have hmem : x ∈ a :: l := (insort_perm le a l).mem_iff.mp hx
      rcases List.mem_cons.mp hmem with hxa | hmem
      · rcases total a b with h' | h'
        · exact absurd h' h
        · rw [hxa]; exact h'
      · exact hb x hmem

theorem pySort_pairwise {α : Type} (le : α → α → Bool)
    (trans : ∀ a b c, le a b = true → le b c = true → le a c = true)
    (total : ∀ a b, le a b = true ∨ le b a = true) :
    ∀ l : List α, List.Pairwise (fun x y => le x y = true) (pySort le l) := by
  intro l
  induction l with
  | nil => simp [pySort]
  | cons a l ih =>
    simp only [pySort]
    exact insort_pairwise le trans total a (pySort le l) ih


/-! ### Aggregation (`collections.Counter`) and `most_common`
    (src/stats.py lines 205-207) -/

/-- One row of the frequency table: `(token, count)`. -/
abbrev Entry := String × Nat

/-- The distinct tokens of `results` in first-occurrence order: the key
order of `Counter(results)` (Python dicts preserve insertion order).
`seen` accumulates the keys already emitted. -/
def insertionKeys (seen : List String) : List String → List String
  | [] => []
  | t :: rest =>
    if t ∈ seen then insertionKeys seen rest
    else t :: insertionKeys (t :: seen) rest

/-- `Counter(results).items()`: each distinct token, in first-occurrence
order, paired with its number of occurrences in `results`. -/
def counterItems (results : List String) : List Entry :=
  (insertionKeys [] results).map (fun t => (t, results.count t))

/-- Comparator for `Counter.most_common`: count descending; `pySort` keeps
ties in insertion order, as CPython's `sorted(items, key=itemgetter(1),
reverse=True)` does. -/
def byCountDesc (a b : Entry) : Bool := decide (b.2 ≤ a.2)

/-- `Counter(results).most_common(n)` (src/stats.py line 206): entries
sorted by count descending (ties in first-insertion order), truncated to
`n` when `n` is given. -/
def most_common (results : List String) (n : Option Nat) : List Entry :=
  let sorted := pySort byCountDesc (counterItems results)
  match n with
  | none => sorted
  | some n => sorted.take n

/-- The sort key of src/stats.py line 207, as a comparator:
`(count, token)` ascending when `reverse`, `(-count, token)` ascending
(count descending, token ascending) otherwise.  Python compares the key
tuples lexicographically and compares tokens by code point. -/
def rankKeyLe (reverse : Bool) (a b : Entry) : Bool :=
  if a.2 = b.2 then pyStrLe a.1 b.1
  else if reverse then decide (a.2 < b.2) else decide (b.2 < a.2)

/-- The list the report loop iterates over (src/stats.py lines 205-207):
`most_common(number if number > 0 else None)`, then `list.sort` with the
`rankKeyLe` key.  `number` is an `int` in Python, hence `Int` here. -/
def displayedList (results : List String) (number : Int) (reverse : Bool) : List Entry :=
  let mc := most_common results (if number > 0 then some number.toNat else none)
  pySort (rankKeyLe reverse) mc

/-- The ordering claim C1 attributes to the program: sort ALL distinct
entries by the configured key first, and only then truncate to the first
`topN` entries.  (Stated from the spec sentence; the program instead
truncates with `most_common` before sorting.) -/
def spec_sortThenTruncate (results : List String) (number : Int) (reverse : Bool) : List Entry :=
  let sorted := pySort (rankKeyLe reverse) (counterItems results)
  if number > 0 then sorted.take number.toNat else sorted

/-! ### The rank / tied-rank loop (src/stats.py lines 210-230) -/

/-- The report loop's rank bookkeeping: `i` enumerates from 1, `j` is set
to `i` whenever the count differs from the previous entry's count
(`last`), mirroring `if count != last_count: j = i; last_count = count`.
Produces `(rank, tied_rank, entry)` rows. -/
def rankLoop (i j : Nat) (last : Option Nat) : List Entry → List (Nat × Nat × Entry)
  | [] => []
  | e :: rest =>
    let j' := if some e.2 = last then j else i
    (i, j', e) :: rankLoop (i + 1) j' (some e.2) rest

/-- Rank annotation of the displayed list: the loop starts with
`i = 1` (via `enumerate(start=1)`), `j = 0`, `last_count = None`. -/
def rankedEntries (l : List Entry) : List (Nat × Nat × Entry) :=
  rankLoop 1 0 none l

/-- Index of the first entry of the maximal contiguous equal-count run
containing position `k` of `counts`: walk left while the previous
position has the same count. -/
def runStartIdx (counts : List Nat) : Nat → Nat
  | 0 => 0
  | k + 1 => if counts[k + 1]? = counts[k]? then runStartIdx counts k else k + 1

/-- Closed form of the `j` value the loop carries at position `k`, with
starting state `(i, j, last)`. -/
def tiedSeq (i j : Nat) (last : Option Nat) (counts : List Nat) : Nat → Nat
  | 0 => if counts[0]? = last then j else i
  | k + 1 => if counts[k + 1]? = counts[k]? then tiedSeq i j last counts k else i + k + 1


theorem rankLoop_length (l : List Entry) :
    ∀ i j last, (rankLoop i j last l).length = l.length := by
  induction l with
  | nil => intro i j last; rfl
  | cons e rest ih =>
    intro i j last
    simp only [rankLoop, List.length_cons, ih]

theorem tiedSeq_shift (c : Nat) (counts : List Nat) :
    ∀ k i j last,
      tiedSeq (i + 1) (if some c = last then j else i) (some c) counts k
        = tiedSeq i j last (c :: counts) (k + 1) := by
  intro k
  induction k with
  | zero =>
    intro i j last
    simp only [tiedSeq, List.getElem?_cons_succ, List.getElem?_cons_zero]
  | succ k ih =>
    intro i j last
    have elL : tiedSeq (i + 1) (if some c = last then j else i) (some c) counts (k + 1)
        = if counts[k + 1]? = counts[k]? then
            tiedSeq (i + 1) (if some c = last then j else i) (some c) counts k
          else i + 1 + k + 1 := rfl
    have elR : tiedSeq i j last (c :: counts) (k + 1 + 1)
        = if (c :: counts)[k + 1 + 1]? = (c :: counts)[k + 1]? then
            tiedSeq i j last (c :: counts) (k + 1)
          else i + (k + 1) + 1 := rfl
    rw [elL, elR]
    simp only [List.getElem?_cons_succ]
    by_cases h : counts[k + 1]? = counts[k]?
    · simp only [if_pos h]
      exact ih i j last
    · simp only [if_neg h]
      omega

theorem rankLoop_get (l : List Entry) :
    ∀ i j last k, (hk : k < l.length) →
      (rankLoop i j last l)[k]?
        = some (i + k, tiedSeq i j last (l.map Prod.snd) k, l.get ⟨k, hk⟩) := by
  induction l with
  | nil => intro i j last k hk; exact absurd hk (by simp)
  | cons e rest ih =>
    intro i j last k hk
    cases k with
    | zero =>
      simp only [rankLoop, List.getElem?_cons_zero, List.get, tiedSeq,
        List.map_cons, List.getElem?_cons_zero]
      rfl
    | succ k =>
      have hk' : k < rest.length := Nat.lt_of_succ_lt_succ hk
      simp only [rankLoop, List.getElem?_cons_succ]
      rw [ih (i + 1) _ (some e.2) k hk']
      simp only [List.map_cons]
      rw [tiedSeq_shift]
      have : i + 1 + k = i + (k + 1) := by omega
      rw [this]
      rfl

theorem tiedSeq_eq_runStartIdx (counts : List Nat) :
    ∀ k, k < counts.length → tiedSeq 1 0 none counts k = runStartIdx counts k + 1 := by
  intro k
  induction k with
  | zero =>
    intro hk
    have : counts[0]? = some counts[0] := List.getElem?_eq_getElem hk
    simp [tiedSeq, runStartIdx, this]
  | succ k ih =>
    intro hk
    have hk' : k < counts.length := Nat.lt_of_succ_lt hk
    simp only [tiedSeq, runStartIdx]
    by_cases h : counts[k + 1]? = counts[k]?
    · simp only [h, if_pos, ite_true]
      exact ih hk'
    · simp only [h, if_neg, ite_false]
      omega

theorem runStartIdx_le (counts : List Nat) : ∀ k, runStartIdx counts k ≤ k := by
  intro k
  induction k with
  | zero => exact Nat.le_refl 0
  | succ k ih =>
    simp only [runStartIdx]
    by_cases h : counts[k + 1]? = counts[k]?
    · simp only [h, if_pos, ite_true]
      exact Nat.le_succ_of_le ih
    · simp [h]

theorem runStartIdx_run (counts : List Nat) :
    ∀ k m, runStartIdx counts k ≤ m → m ≤ k → counts[m]? = counts[k]? := by
  intro k
  induction k with
  | zero =>
    intro m _ hm
    have : m = 0 := Nat.le_zero.mp hm
    rw [this]
  | succ k ih =>
    intro m hlo hhi
    simp only [runStartIdx] at hlo
    by_cases h : counts[k + 1]? = counts[k]?
    · simp only [h, if_pos, ite_true] at hlo
      by_cases hm : m = k + 1
      · rw [hm]
      · have : m ≤ k := by omega
        rw [ih m hlo this, h]
    · simp only [h, if_neg, ite_false] at hlo
      have : m = k + 1 := by omega
      rw [this]

theorem runStartIdx_maximal (counts : List Nat) :
    ∀ k, runStartIdx counts k = 0 ∨
      counts[runStartIdx counts k - 1]? ≠ counts[k]? := by
  intro k
  induction k with
  | zero => left; rfl
  | succ k ih =>
    simp only [runStartIdx]
    by_cases h : counts[k + 1]? = counts[k]?
    · simp only [h, if_pos, ite_true]
      exact ih
    · simp only [h, if_neg, ite_false]
      right
      simp only [Nat.add_sub_cancel]
      exact fun hcontra => h hcontra.symm


/-! ### Comparator facts -/

theorem pyStrLe_trans {a b c : String} :
    pyStrLe a b = true → pyStrLe b c = true → pyStrLe a c = true :=
  pyListLe_trans _ _ _

theorem pyStrLe_total (a b : String) : pyStrLe a b = true ∨ pyStrLe b a = true :=
  pyListLe_total _ _

theorem byCountDesc_trans :
    ∀ a b c : Entry, byCountDesc a b = true → byCountDesc b c = true →
      byCountDesc a c = true := by
  intro a b c
  simp only [byCountDesc, decide_eq_true_eq]
  omega

theorem byCountDesc_total :
    ∀ a b : Entry, byCountDesc a b = true ∨ byCountDesc b a = true := by
  intro a b
  simp only [byCountDesc, decide_eq_true_eq]
  omega

theorem rankKeyLe_trans (r : Bool) :
    ∀ a b c : Entry, rankKeyLe r a b = true → rankKeyLe r b c = true →
      rankKeyLe r a c = true := by
  intro a b c hab hbc
  simp only [rankKeyLe] at hab hbc ⊢
  cases r <;>
  · split_ifs at hab hbc ⊢ <;>
      (try simp only [decide_eq_true_eq] at hab hbc ⊢) <;>
      first
        | exact pyStrLe_trans hab hbc
        | omega

theorem rankKeyLe_total (r : Bool) :
    ∀ a b : Entry, rankKeyLe r a b = true ∨ rankKeyLe r b a = true := by
  intro a b
  simp only [rankKeyLe]
  cases r <;>
  · split_ifs <;>
      (try simp only [decide_eq_true_eq]) <;>
      first
        | exact pyStrLe_total _ _
        | omega

/-! ### Claim C1 -/

/-- C1, as stated, is false: the program truncates with
`Counter.most_common` BEFORE the final key sort.  On the token stream
`["b", "b", "a"]` with `topN = 1` and `reverse` set, sorting first and
truncating afterwards would keep the least-frequent entry `("a", 1)`,
but the program shows the most-frequent entry `("b", 2)`. -/
theorem C1_counterexample :
    displayedList ["b", "b", "a"] 1 true = [("b", 2)] ∧
    spec_sortThenTruncate ["b", "b", "a"] 1 true = [("a", 1)] ∧
    displayedList ["b", "b", "a"] 1 true ≠ spec_sortThenTruncate ["b", "b", "a"] 1 true :=
  ⟨by decide, by decide, by decide⟩

/-- C1 amended: for `topN > 0` the displayed entries are a permutation of
`most_common(topN)` — the `topN` entries of the count-descending,
insertion-stable order, i.e. the `topN` MOST frequent tokens (regardless
of `reverse`, and with ties at the cutoff broken by first-occurrence
order, not token order) — re-sorted by the configured key; every distinct
token left out by the truncation has a count no larger than any displayed
entry's count. -/
theorem C1_truncation_before_sort (results : List String) (number : Int) (reverse : Bool)
    (hn : 0 < number) :
    List.Perm (displayedList results number reverse)
      (most_common results (some number.toNat)) ∧
    List.Pairwise (fun a b => rankKeyLe reverse a b = true)
      (displayedList results number reverse) ∧
    (∀ e ∈ displayedList results number reverse, ∀ e' ∈ counterItems results,
        e' ∉ most_common results (some number.toNat) → e'.2 ≤ e.2) := by
  have hcond : (if number > 0 then some number.toNat else none) = some number.toNat :=
    if_pos hn
  have hdisp : displayedList results number reverse
      = pySort (rankKeyLe reverse) (most_common results (some number.toNat)) := by
    simp only [displayedList, hcond]
  refine ⟨?_, ?_, ?_⟩
  · rw [hdisp]
    exact pySort_perm _ _
  · rw [hdisp]
    exact pySort_pairwise _ (rankKeyLe_trans reverse) (rankKeyLe_total reverse) _
  · intro e he e' he' hnot
    have hsorted : List.Pairwise (fun x y => byCountDesc x y = true)
        (pySort byCountDesc (counterItems results)) :=
      pySort_pairwise _ byCountDesc_trans byCountDesc_total _
    have hemem : e ∈ (pySort byCountDesc (counterItems results)).take number.toNat := by
      have : e ∈ pySort (rankKeyLe reverse) (most_common results (some number.toNat)) := by
        rw [← hdisp]; exact he
      have := (pySort_perm (rankKeyLe reverse) _).mem_iff.mp this
      simpa [most_common] using this
    have hemem' : e' ∈ pySort byCountDesc (counterItems results) :=
      (pySort_perm byCountDesc _).mem_iff.mpr he'
    have hnot' : e' ∉ (pySort byCountDesc (counterItems results)).take number.toNat := by
      intro hc
      exact hnot (by simpa [most_common] using hc)
    have hdropmem : e' ∈ (pySort byCountDesc (counterItems results)).drop number.toNat := by
      rcases List.mem_append.mp
          ((List.take_append_drop number.toNat
              (pySort byCountDesc (counterItems results))) ▸ hemem') with h | h
      · exact absurd h hnot'
      · exact h
    have hpw := (List.take_append_drop number.toNat
        (pySort byCountDesc (counterItems results))) ▸ hsorted
    rcases List.pairwise_append.mp hpw with ⟨-, -, hcross⟩
    have := hcross e hemem e' hdropmem
    simpa [byCountDesc] using this

/-! ### Claim C2 -/

/-- C2: in the final (sorted and truncated) displayed list, ranks are the
sequence `1..K` (the entry at 0-based position `k` has rank `k + 1`), and
each entry's tied-rank is the rank of the first entry of the maximal
contiguous equal-count run containing it: position `runStartIdx counts k`,
which starts no later than `k`, whose whole span `[runStartIdx counts k,
k]` shares the entry's count, and which is maximal (either it is position
0 or the previous position has a different count). -/
theorem C2_tied_ranks (results : List String) (number : Int) (reverse : Bool)
    (k : Nat) (hk : k < (displayedList results number reverse).length) :
    (rankedEntries (displayedList results number reverse)).length
        = (displayedList results number reverse).length ∧
    (rankedEntries (displayedList results number reverse))[k]?
        = some (k + 1,
            runStartIdx ((displayedList results number reverse).map Prod.snd) k + 1,
            (displayedList results number reverse).get ⟨k, hk⟩) ∧
    runStartIdx ((displayedList results number reverse).map Prod.snd) k ≤ k ∧
    (∀ m, runStartIdx ((displayedList results number reverse).map Prod.snd) k ≤ m →
        m ≤ k →
        ((displayedList results number reverse).map Prod.snd)[m]?
          = ((displayedList results number reverse).map Prod.snd)[k]?) ∧
    (runStartIdx ((displayedList results number reverse).map Prod.snd) k = 0 ∨
        ((displayedList results number reverse).map Prod.snd)[
            runStartIdx ((displayedList results number reverse).map Prod.snd) k - 1]?
          ≠ ((displayedList results number reverse).map Prod.snd)[k]?) := by
  refine ⟨rankLoop_length _ 1 0 none, ?_, runStartIdx_le _ k,
    runStartIdx_run _ k, runStartIdx_maximal _ k⟩
  rw [rankedEntries, rankLoop_get (displayedList results number reverse) 1 0 none k hk]
  have hklen : k < ((displayedList results number reverse).map Prod.snd).length := by
    rw [List.length_map]; exact hk
  rw [tiedSeq_eq_runStartIdx _ k hklen]
  rw [Nat.add_comm 1 k]

/-- Concrete instance of `C2_tied_ranks`: on tokens `["a", "b", "b"]` the
displayed list is `[("b", 2), ("a", 1)]` and its second row gets rank 2
and tied-rank 2 (its own rank: a singleton run). -/
theorem C2_witness :
    (rankedEntries (displayedList ["a", "b", "b"] 0 false))[1]?
        = some (2, 2, ("a", 1)) := by
  have h := C2_tied_ranks ["a", "b", "b"] 0 false 1 (by decide)
  rcases h with ⟨-, h2, -⟩
  rw [h2]
  rfl


/-- Concrete instance of `C1_truncation_before_sort` at `topN = 1`. -/
theorem C1_witness :
    List.Perm (displayedList ["b", "b", "a"] 1 true)
      (most_common ["b", "b", "a"] (some (Int.toNat 1))) :=
  (C1_truncation_before_sort ["b", "b", "a"] 1 true (by decide)).1

/-! ### Claim C4: flipping `reverse` -/

theorem rankKeyLe_false_counts {a b : Entry} (h : rankKeyLe false a b = true) :
    b.2 ≤ a.2 := by
  by_cases h1 : a.2 = b.2
  · omega
  · simp [rankKeyLe, h1] at h
    omega

theorem rankKeyLe_true_counts {a b : Entry} (h : rankKeyLe true a b = true) :
    a.2 ≤ b.2 := by
  by_cases h1 : a.2 = b.2
  · omega
  · simp [rankKeyLe, h1] at h
    omega

theorem rankKeyLe_ties {r : Bool} {a b : Entry} (h : rankKeyLe r a b = true)
    (hc : a.2 = b.2) : pyStrLe a.1 b.1 = true := by
  simp only [rankKeyLe, if_pos hc] at h
  exact h

theorem insertionKeys_nodup_aux :
    ∀ (l : List String) (seen : List String),
      (insertionKeys seen l).Nodup ∧ ∀ t ∈ insertionKeys seen l, t ∉ seen := by
  intro l
  induction l with
  | nil => intro seen; exact ⟨List.nodup_nil, by simp [insertionKeys]⟩
  | cons t rest ih =>
    intro seen
    simp only [insertionKeys]
    by_cases h : t ∈ seen
    · simp only [if_pos h]
      exact ih seen
    · simp only [if_neg h]
      rcases ih (t :: seen) with ⟨hnd, hnotin⟩
      constructor
      · refine List.nodup_cons.mpr ⟨?_, hnd⟩
        intro hc
        exact hnotin t hc (List.mem_cons_self t seen)
      · intro u hu
        rcases List.mem_cons.mp hu with hut | hu
        · rw [hut]; exact h
        · intro hc
          exact hnotin u hu (List.mem_cons_of_mem t hc)

theorem counterItems_map_fst (results : List String) :
    (counterItems results).map Prod.fst = insertionKeys [] results := by
  simp only [counterItems, List.map_map]
  have hid : (Prod.fst ∘ fun t => (t, results.count t)) = @id String := rfl
  rw [hid, List.map_id]

theorem counterItems_map_fst_nodup (results : List String) :
    ((counterItems results).map Prod.fst).Nodup := by
  rw [counterItems_map_fst]
  exact (insertionKeys_nodup_aux results []).1

theorem most_common_sublist (results : List String) (n : Option Nat) :
    List.Sublist (most_common results n) (pySort byCountDesc (counterItems results)) := by
  cases n with
  | none => exact List.Sublist.refl _
  | some n => exact List.take_sublist n _

theorem displayedList_map_fst_nodup (results : List String) (number : Int) (r : Bool) :
    ((displayedList results number r).map Prod.fst).Nodup := by
  have h1 : ((pySort byCountDesc (counterItems results)).map Prod.fst).Nodup :=
    ((pySort_perm byCountDesc (counterItems results)).map Prod.fst).nodup_iff.mpr
      (counterItems_map_fst_nodup results)
  have h2 : ((most_common results
      (if number > 0 then some number.toNat else none)).map Prod.fst).Nodup :=
    ((most_common_sublist results _).map Prod.fst).nodup h1
  exact ((pySort_perm (rankKeyLe r) _).map Prod.fst).nodup_iff.mpr h2

theorem pairwise_get_adj {α : Type} {R : α → α → Prop} {l : List α}
    (h : List.Pairwise R l) (k : Nat) (hk : k + 1 < l.length) :
    R (l.get ⟨k, Nat.lt_of_succ_lt hk⟩) (l.get ⟨k + 1, hk⟩) :=
  List.pairwise_iff_get.mp h ⟨k, Nat.lt_of_succ_lt hk⟩ ⟨k + 1, hk⟩
    (Fin.mk_lt_mk.mpr (Nat.lt_succ_self k))

theorem map_fst_get_ne {l : List Entry} (h : (l.map Prod.fst).Nodup)
    (k : Nat) (hk : k + 1 < l.length) :
    (l.get ⟨k, Nat.lt_of_succ_lt hk⟩).1 ≠ (l.get ⟨k + 1, hk⟩).1 := by
  have h1 : k < (l.map Prod.fst).length := by
    rw [List.length_map]; omega
  have h2 : k + 1 < (l.map Prod.fst).length := by
    rw [List.length_map]; exact hk
  have hp := List.pairwise_iff_get.mp h ⟨k, h1⟩ ⟨k + 1, h2⟩
    (Fin.mk_lt_mk.mpr (Nat.lt_succ_self k))
  intro heq
  apply hp
  simp only [List.get_eq_getElem] at heq
  simp only [List.get_eq_getElem, List.getElem_map]
  exact heq

theorem displayedList_pairwise (results : List String) (number : Int) (r : Bool) :
    List.Pairwise (fun a b => rankKeyLe r a b = true)
      (displayedList results number r) :=
  pySort_pairwise _ (rankKeyLe_trans r) (rankKeyLe_total r) _

theorem displayedList_perm_counterItems (results : List String) (r : Bool) :
    List.Perm (displayedList results 0 r) (counterItems results) := by
  have h0 : displayedList results 0 r
      = pySort (rankKeyLe r) (pySort byCountDesc (counterItems results)) := rfl
  rw [h0]
  exact (pySort_perm _ _).trans (pySort_perm _ _)

/-- Tie-break property shared by both modes: adjacent equal-count entries
of the displayed list carry strictly ascending tokens. -/
theorem displayedList_tie_ascending (results : List String) (number : Int) (r : Bool)
    (k : Nat) (hk : k + 1 < (displayedList results number r).length)
    (hc : ((displayedList results number r).get ⟨k, Nat.lt_of_succ_lt hk⟩).2
        = ((displayedList results number r).get ⟨k + 1, hk⟩).2) :
    pyStrLt ((displayedList results number r).get ⟨k, Nat.lt_of_succ_lt hk⟩).1
      ((displayedList results number r).get ⟨k + 1, hk⟩).1 = true := by
  have hle := rankKeyLe_ties
    (pairwise_get_adj (displayedList_pairwise results number r) k hk) hc
  have hne := map_fst_get_ne (displayedList_map_fst_nodup results number r) k hk
  apply pyListLt_of_le_of_ne _ _ hle
  intro hdata
  exact hne (String.ext hdata)

/-- C4: with `topN = 0`, flipping `reverse` exactly reverses the sequence
of displayed counts, while within every equal-count tie the tokens ascend
in code-point order in both modes. -/
theorem C4_reverse_flip (results : List String) :
    ((displayedList results 0 true).map Prod.snd)
        = ((displayedList results 0 false).map Prod.snd).reverse ∧
    (∀ k, (hk : k + 1 < (displayedList results 0 false).length) →
      ((displayedList results 0 false).get ⟨k, Nat.lt_of_succ_lt hk⟩).2
          = ((displayedList results 0 false).get ⟨k + 1, hk⟩).2 →
      pyStrLt ((displayedList results 0 false).get ⟨k, Nat.lt_of_succ_lt hk⟩).1
        ((displayedList results 0 false).get ⟨k + 1, hk⟩).1 = true) ∧
    (∀ k, (hk : k + 1 < (displayedList results 0 true).length) →
      ((displayedList results 0 true).get ⟨k, Nat.lt_of_succ_lt hk⟩).2
          = ((displayedList results 0 true).get ⟨k + 1, hk⟩).2 →
      pyStrLt ((displayedList results 0 true).get ⟨k, Nat.lt_of_succ_lt hk⟩).1
        ((displayedList results 0 true).get ⟨k + 1, hk⟩).1 = true) := by
  refine ⟨?_, displayedList_tie_ascending results 0 false,
    displayedList_tie_ascending results 0 true⟩
  have hpermA := displayedList_perm_counterItems results false
  have hpermB := displayedList_perm_counterItems results true
  have hsortA : List.Pairwise (fun x y : Nat => y ≤ x)
      ((displayedList results 0 false).map Prod.snd) := by
    rw [List.pairwise_map]
    exact (displayedList_pairwise results 0 false).imp
      (fun h => rankKeyLe_false_counts h)
  have hsortB : List.Pairwise (fun x y : Nat => x ≤ y)
      ((displayedList results 0 true).map Prod.snd) := by
    rw [List.pairwise_map]
    exact (displayedList_pairwise results 0 true).imp
      (fun h => rankKeyLe_true_counts h)
  have hsortArev : List.Pairwise (fun x y : Nat => x ≤ y)
      (((displayedList results 0 false).map Prod.snd).reverse) :=
    List.pairwise_reverse.mpr hsortA
  have hperm : List.Perm ((displayedList results 0 true).map Prod.snd)
      (((displayedList results 0 false).map Prod.snd).reverse) := by
    refine (List.Perm.map Prod.snd (hpermB.trans hpermA.symm)).trans ?_
    exact (List.reverse_perm _).symm
  exact List.eq_of_perm_of_sorted hperm hsortB hsortArev


/-- Concrete instance of `C4_reverse_flip` on the tied stream `["a", "b"]`:
the count sequence reverses, and within the tie `"a"` precedes `"b"` in
the non-reversed mode. -/
theorem C4_witness :
    ((displayedList ["a", "b"] 0 true).map Prod.snd)
        = ((displayedList ["a", "b"] 0 false).map Prod.snd).reverse ∧
    pyStrLt ((displayedList ["a", "b"] 0 false).get ⟨0, by decide⟩).1
      ((displayedList ["a", "b"] 0 false).get ⟨1, by decide⟩).1 = true :=
  ⟨(C4_reverse_flip ["a", "b"]).1, (C4_reverse_flip ["a", "b"]).2.1 0 (by decide) (by decide)⟩

/-! ### Claim C3: whitespace stripping in `file_statistics`
    (src/stats.py lines 41-54) -/

/-- The characters the regex `\s` removes in `re.sub(r'\s', '', content)`.
Listed here are the ASCII members of the class (the ones exercised in this
development); which exact characters count as whitespace does not matter
for the claims below, which are about WHEN the stripping step runs. -/
def isPySpace (c : Char) : Bool :=
  c = ' ' || c = '\t' || c = '\n' || c = '\r' || c = '\x0b' || c = '\x0c'

/-- Python truthiness of a string (`not regex` is true iff `regex` is the
empty string; `args.expression` defaults to `""`). -/
def pyTruthy (s : String) : Bool := !(s == "")

/-- The content preprocessing of `file_statistics` (src/stats.py lines
44-47): strip whitespace when `ignore_space and not regex and library not
in ["cp", "sp"]`, then lowercase when `ignore_case`.  `library` is
`args.library`: `none` when `-l` was not given.  (`str.lower` is embedded
as `Char.toLower`, which covers the ASCII letters; the claims below do not
depend on the case-folding table.) -/
def preprocessContent (content : List Char) (ignore_space ignore_case : Bool)
    (regex : String) (library : Option String) : List Char :=
  let content1 :=
    if ignore_space && !(pyTruthy regex)
        && !(library == some "cp" || library == some "sp")
    then content.filter (fun c => !(isPySpace c))
    else content
  if ignore_case then content1.map Char.toLower else content1

/-- C3: whitespace is stripped before matching exactly when
`ignoreWhitespace` is set AND no explicit expression was given AND the
library is neither `cp` nor `sp`; in particular a non-empty expression
always suppresses stripping, whatever the other flags. -/
theorem C3_strip_condition (content : List Char) (iw ic : Bool) (regex : String)
    (library : Option String) :
    (preprocessContent content iw ic regex library
      = (let stripped :=
          if iw = true ∧ regex = "" ∧ library ≠ some "cp" ∧ library ≠ some "sp"
          then content.filter (fun c => !(isPySpace c))
          else content
         if ic then stripped.map Char.toLower else stripped)) ∧
    (regex ≠ "" → preprocessContent content iw ic regex library
      = (if ic then content.map Char.toLower else content)) := by
  constructor
  · simp only [preprocessContent, pyTruthy]
    by_cases hiw : iw = true <;>
      by_cases hre : regex = "" <;>
        by_cases hcp : library = some "cp" <;>
          by_cases hsp : library = some "sp" <;>
            simp [hiw, hre, hcp, hsp]
  · intro hre
    simp [preprocessContent, pyTruthy, hre]

/-- Concrete instance of `C3_strip_condition`: with an explicit expression the
space survives even though `--show-space` is absent. -/
theorem C3_witness :
    preprocessContent [' ', 'a'] true false "x" none = [' ', 'a'] :=
  (C3_strip_condition [' ', 'a'] true false "x" none).2 (by decide)


/-! ### Claim C8: `parse_args` exit behaviour (src/stats.py lines 62-173) -/

/-- The named character-class libraries (src/stats.py lines 17-26); the
regex strings are carried as data. -/
def libraries : List (String × String) :=
  [("c", "[^\\W]"), ("cp", "[^\\W]|[\\s]"), ("cn", "[\\u4e00-\\u9fff]"),
   ("en", "[a-zA-Z]"), ("alnum", "[a-zA-Z\\d]"), ("num", "[\\d]"),
   ("sp", "[\\s]"), ("punc", "[^\\w\\s]")]

/-- Exit behaviour of `parse_args`.  The parser puts `-e` and `-l` in a
mutually exclusive group and restricts `-l` to the library names with
`choices=libraries.keys()`; violating either rule makes argparse call
`parser.error`, which per the argparse contract prints a usage message and
terminates the process with exit status 2.  Returns `some code` when
parsing terminates the process, `none` when parsing succeeds.
`expressionGiven` is whether `-e` appeared on the command line; `library`
is the `-l` value, `none` when the option is absent. -/
def parse_args_exit (expressionGiven : Bool) (library : Option String) : Option Nat :=
  if expressionGiven && library.isSome then some 2
  else
    match library with
    | some lib => if (libraries.map Prod.fst).contains lib then none else some 2
    | none => none

/-- C8 as stated is false: configuration errors (both `-e` and `-l`
supplied, or an unknown library name) terminate with exit status 2, the
argparse error status — not 1. -/
theorem C8_counterexample :
    parse_args_exit true (some "en") = some 2 ∧
    parse_args_exit false (some "bogus") = some 2 ∧
    parse_args_exit true (some "en") ≠ some 1 ∧
    parse_args_exit false (some "bogus") ≠ some 1 :=
  ⟨by decide, by decide, by decide, by decide⟩

/-- C8 amended: every invocation with both `-e` and `-l`, or with an
unknown library name, terminates argument parsing with exit status
exactly 2 — and 2 is the only failure status parsing can produce. -/
theorem C8_exit_status_two (expressionGiven : Bool) (library : Option String) :
    (expressionGiven = true → library.isSome = true →
        parse_args_exit expressionGiven library = some 2) ∧
    (∀ lib, library = some lib → (libraries.map Prod.fst).contains lib = false →
        parse_args_exit expressionGiven library = some 2) ∧
    (parse_args_exit expressionGiven library = none ∨
        parse_args_exit expressionGiven library = some 2) := by
  refine ⟨?_, ?_, ?_⟩
  · intro he hs
    simp [parse_args_exit, he, hs]
  · intro lib hl hnc
    subst hl
    cases expressionGiven with
    | true => rfl
    | false =>
      simp only [parse_args_exit, Bool.false_and, Bool.false_eq_true, if_false, hnc]
  · cases library with
    | none => cases expressionGiven <;> simp [parse_args_exit]
    | some lib =>
      cases expressionGiven with
      | true => right; rfl
      | false =>
        by_cases hc : (libraries.map Prod.fst).contains lib = true
        · left
          simp only [parse_args_exit, Bool.false_and, Bool.false_eq_true, if_false, hc,
            if_true]
        · right
          have hc' : (libraries.map Prod.fst).contains lib = false :=
            Bool.eq_false_iff.mpr hc
          simp only [parse_args_exit, Bool.false_and, Bool.false_eq_true, if_false, hc']

/-- Concrete instance of `C8_exit_status_two`: `-e` plus `-l en`. -/
theorem C8_witness : parse_args_exit true (some "en") = some 2 :=
  (C8_exit_status_two true (some "en")).1 rfl rfl

/-! ### Claims C6 and C10: the traversal loop of `main`
    (src/stats.py lines 175-187 and 199-203) -/

/-- What `file_statistics` does with one file: the `magic` sniff reports a
non-text type (function returns `None`), reading raises
`UnicodeDecodeError` (message printed, `None` returned), or the match
list — possibly empty — is returned. -/
inductive FileOutcome where
  | nonText : FileOutcome
  | encodingError : FileOutcome
  | ok : List String → FileOutcome
deriving DecidableEq

/-- The return value of `file_statistics` for the outcome. -/
def file_statistics_result : FileOutcome → Option (List String)
  | .nonText => none
  | .encodingError => none
  | .ok ts => some ts

/-- The diagnostics `file_statistics` prints for one file: the verbose
processing line, then — depending on the outcome — the verbose non-text
skip line or the always-printed encoding error line. -/
def file_statistics_output (path : String) (o : FileOutcome) (verbose : Bool) :
    List String :=
  (if verbose then ["Processing file: " ++ path] else [])
    ++ match o with
       | .nonText =>
          if verbose then ["Skipping file due to non-text type: " ++ path] else []
       | .encodingError => ["Skipping file due to encoding error: " ++ path]
       | .ok _ => []

/-- One root path of `main`'s loop together with what the filesystem says
about it: a plain file (`os.path.isfile`), a directory (`os.path.isdir`)
with the `(root, files)` pairs `os.walk` yields — each file name carrying
its processing outcome — or neither.  The `dirs` component of `os.walk`
matters only through the order of the walk itself. -/
inductive RootEntry where
  | file : String → FileOutcome → RootEntry
  | dir : String → List (String × List (String × FileOutcome)) → RootEntry
  | missing : String → RootEntry
deriving DecidableEq

/-- `fnmatch(name, '*.' + fmt)` for a wildcard-free `fmt`: the name ends
with `"." ++ fmt`. -/
def matchesFormat (name fmt : String) : Bool :=
  List.isSuffixOf ("." ++ fmt).data name.data

/-- The format filter of `process_directory` (src/stats.py line 184): an
empty filter list accepts every file, otherwise at least one format must
match.  (`file_formats` is `args.format.split(',')` when `-f` was given,
else `[]`.) -/
def formatFilter (file_formats : List String) (name : String) : Bool :=
  file_formats.isEmpty || file_formats.any (fun fmt => matchesFormat name fmt)

/-- `os.path.join root name` on POSIX paths. -/
def pathJoin (root name : String) : String := root ++ "/" ++ name

/-- The `(path, outcome)` pairs `process_file` is invoked on for one root
path: a plain-file root is passed directly — with NO format filter
applied; a directory root is walked with the filter applied to each file
name, cutting the walk after its first entry when `recursive` is false
(the `break`); any other root is skipped by the `if/elif` with no `else`. -/
def rootScanned (recursive : Bool) (file_formats : List String) :
    RootEntry → List (String × FileOutcome)
  | .file p o => [(p, o)]
  | .dir _ walk =>
      (if recursive then walk else walk.take 1).flatMap
        (fun rf => (rf.2.filter (fun nf => formatFilter file_formats nf.1)).map
          (fun nf => (pathJoin rf.1 nf.1, nf.2)))
  | .missing _ => []

/-- All `(path, outcome)` pairs `process_file` sees, in loop order. -/
def scannedFiles (roots : List RootEntry) (recursive : Bool)
    (file_formats : List String) : List (String × FileOutcome) :=
  roots.flatMap (rootScanned recursive file_formats)

/-- The token stream `results` accumulated across the run. -/
def runResults (roots : List RootEntry) (recursive : Bool)
    (file_formats : List String) : List String :=
  (scannedFiles roots recursive file_formats).flatMap
    (fun po => (file_statistics_result po.2).getD [])

/-- The `processed_files` list: `process_file` appends the path exactly
when `file_statistics` did not return `None` — an empty match list still
counts, because the guard is `if statistics is not None`. -/
def processedFiles (roots : List RootEntry) (recursive : Bool)
    (file_formats : List String) : List String :=
  (scannedFiles roots recursive file_formats).filterMap
    (fun po => if (file_statistics_result po.2).isSome then some po.1 else none)

/-- Diagnostics printed while traversing. -/
def runDiagnostics (roots : List RootEntry) (recursive : Bool)
    (file_formats : List String) (verbose : Bool) : List String :=
  (scannedFiles roots recursive file_formats).flatMap
    (fun po => file_statistics_output po.1 po.2 verbose)

/-- C6 as stated is false: a plain-file root is scanned (and processed)
even though its name matches none of the filter formats — `main` calls
`process_file` on a file root without consulting the filter. -/
theorem C6_counterexample :
    scannedFiles [RootEntry.file "a.md" (FileOutcome.ok ["a"])] false ["txt"]
        = [("a.md", FileOutcome.ok ["a"])] ∧
    processedFiles [RootEntry.file "a.md" (FileOutcome.ok ["a"])] false ["txt"]
        = ["a.md"] ∧
    formatFilter ["txt"] "a.md" = false :=
  ⟨by decide, by decide, by decide⟩

/-- C6 amended: the format filter does not apply to plain-file roots — a
plain-file root is always scanned, whatever the filter — while every file
scanned under a directory root passed the filter (and, when the filter is
non-empty, therefore matched at least one extension). -/
theorem C6_file_root_unfiltered (roots : List RootEntry) (recursive : Bool)
    (file_formats : List String) :
    (∀ p o, RootEntry.file p o ∈ roots →
        (p, o) ∈ scannedFiles roots recursive file_formats) ∧
    (∀ d walk pf, pf ∈ rootScanned recursive file_formats (RootEntry.dir d walk) →
        ∃ root files name o,
          (root, files) ∈ (if recursive then walk else walk.take 1) ∧
          (name, o) ∈ files ∧ formatFilter file_formats name = true ∧
          pf = (pathJoin root name, o)) := by
  constructor
  · intro p o hmem
    simp only [scannedFiles, List.mem_flatMap]
    exact ⟨RootEntry.file p o, hmem, by simp [rootScanned]⟩
  · intro d walk pf hmem
    simp only [rootScanned, List.mem_flatMap] at hmem
    rcases hmem with ⟨rf, hrf, hpf⟩
    rcases List.mem_map.mp hpf with ⟨nf, hnf, heq⟩
    rcases List.mem_filter.mp hnf with ⟨hnf2, hfmt⟩
    exact ⟨rf.1, rf.2, nf.1, nf.2, hrf, hnf2, hfmt, heq.symm⟩

/-- Concrete instance of `C6_file_root_unfiltered`. -/
theorem C6_witness :
    ("a.md", FileOutcome.ok ["a"])
      ∈ scannedFiles [RootEntry.file "a.md" (FileOutcome.ok ["a"])] false ["txt"] :=
  (C6_file_root_unfiltered [RootEntry.file "a.md" (FileOutcome.ok ["a"])] false ["txt"]).1
    "a.md" (FileOutcome.ok ["a"]) (List.mem_singleton.mpr rfl)

/-- C10: a root path that is neither an existing file nor a directory is
skipped silently — the run produces exactly the token stream, processed
list and diagnostics it would produce without that path (hence no
diagnostic, no processed-list entry, unchanged exit status, and the
remaining paths still processed) — and a successfully read file with zero
matches still appears in the processed-files list while contributing no
tokens. -/
theorem C10_missing_root_skip (before after : List RootEntry) (p : String)
    (recursive : Bool) (file_formats : List String) (verbose : Bool) :
    runResults (before ++ RootEntry.missing p :: after) recursive file_formats
        = runResults (before ++ after) recursive file_formats ∧
    processedFiles (before ++ RootEntry.missing p :: after) recursive file_formats
        = processedFiles (before ++ after) recursive file_formats ∧
    runDiagnostics (before ++ RootEntry.missing p :: after) recursive file_formats verbose
        = runDiagnostics (before ++ after) recursive file_formats verbose ∧
    runResults (before ++ RootEntry.file p (FileOutcome.ok []) :: after)
        recursive file_formats
        = runResults (before ++ after) recursive file_formats ∧
    processedFiles (before ++ RootEntry.file p (FileOutcome.ok []) :: after)
        recursive file_formats
        = processedFiles before recursive file_formats
            ++ p :: processedFiles after recursive file_formats := by
  refine ⟨?_, ?_, ?_, ?_, ?_⟩ <;>
    simp [runResults, processedFiles, runDiagnostics, scannedFiles,
      List.flatMap_append, List.filterMap_append, rootScanned,
      file_statistics_result]


/-! ### Claims C7 and C9: report rendering and routing
    (src/stats.py lines 205-238) -/

/-- One line of the program's output.  An `entry` line carries rank,
tied-rank, the escaped token, the count, and — in percent mode — the
exact operands `(count, chars_sum)` of the `count / chars_sum * 100`
computation (the floating-point text itself is not modelled). -/
inductive Line where
  | header : Bool → Line
  | entry : Nat → Nat → String → Nat → Option (Nat × Nat) → Line
  | totalChars : Nat → Line
  | totalOccurrences : Nat → Line
  | processedHeader : Line
  | filePath : String → Line
deriving DecidableEq

/-- The display escaping of src/stats.py lines 223-224 (`escape_dict`). -/
def escapeToken (s : String) : String :=
  if s = " " then "\\s"
  else if s = "\n" then "\\n"
  else if s = "\t" then "\\t"
  else if s = "\r" then "\\r"
  else if s = "\x0c" then "\\f"
  else if s = "\x0b" then "\\v"
  else if s = "\x08" then "\\b"
  else s

/-- The per-entry loop of the report (src/stats.py lines 218-230), over
the rank-annotated rows.  In percent mode each row divides by
`chars_sum`; when that sum is zero the first row raises
`ZeroDivisionError` and the run dies — modelled as `Except.error`. -/
def entryLines (displayPercent : Bool) (charsSum : Nat) :
    List (Nat × Nat × Entry) → Except Unit (List Line)
  | [] => Except.ok []
  | (i, j, e) :: rest =>
    if displayPercent then
      if charsSum = 0 then Except.error ()
      else
        match entryLines displayPercent charsSum rest with
        | Except.error u => Except.error u
        | Except.ok tail =>
            Except.ok (Line.entry i j (escapeToken e.1) e.2 (some (e.2, charsSum)) :: tail)
    else
      match entryLines displayPercent charsSum rest with
      | Except.error u => Except.error u
      | Except.ok tail =>
          Except.ok (Line.entry i j (escapeToken e.1) e.2 none :: tail)

/-- Where output lines end up: in the `-o` file, or on stdout. -/
structure ReportOut where
  fileLines : List Line
  stdoutLines : List Line
deriving DecidableEq

/-- The reporting stage of `main` (src/stats.py lines 205-238), from the
aggregated token stream.  The header and the entry rows are printed with
`file=f` — the `-o` file when `outputSet`, else stdout — after which the
file is closed; the summary (`Total characters`, `Total occurrences`,
`Processed files:` and the paths) is printed with plain `print`, that is,
to stdout unconditionally.  `chars_count` ends as the number of displayed
rows; `chars_sum` ends as the sum of the displayed counts in both the
percent branch (computed up front on line 213) and the non-percent
branch (accumulated on line 229). -/
def mainReport (results : List String) (number : Int)
    (reverse displayPercent outputSet : Bool) (processed : List String) :
    Except Unit ReportOut :=
  let displayed := displayedList results number reverse
  let charsSum := (displayed.map Prod.snd).sum
  match entryLines displayPercent charsSum (rankedEntries displayed) with
  | Except.error u => Except.error u
  | Except.ok elines =>
    let table := Line.header displayPercent :: elines
    let summary := Line.totalChars displayed.length
        :: Line.totalOccurrences charsSum :: Line.processedHeader
        :: processed.map Line.filePath
    Except.ok (if outputSet then ⟨table, summary⟩ else ⟨[], table ++ summary⟩)

theorem entryLines_length (displayPercent : Bool) (charsSum : Nat) :
    ∀ rows l, entryLines displayPercent charsSum rows = Except.ok l →
      l.length = rows.length := by
  intro rows
  induction rows with
  | nil =>
    intro l h
    simp only [entryLines] at h
    cases h
    rfl
  | cons row rest ih =>
    intro l h
    rcases row with ⟨i, j, e⟩
    cases displayPercent with
    | false =>
      simp only [entryLines, Bool.false_eq_true, if_false] at h
      cases he : entryLines false charsSum rest with
      | error u => rw [he] at h; cases h
      | ok tail =>
        rw [he] at h
        cases h
        simp only [List.length_cons]
        rw [ih tail he]
    | true =>
      simp only [entryLines, if_true] at h
      by_cases hz : charsSum = 0
      · rw [if_pos hz] at h; cases h
      · rw [if_neg hz] at h
        cases he : entryLines true charsSum rest with
        | error u => rw [he] at h; cases h
        | ok tail =>
          rw [he] at h
          cases h
          simp only [List.length_cons]
          rw [ih tail he]

/-- C7 as stated is false: with `-o` set, the summary lines land on
stdout, not in the file.  With token stream `["a"]` and output file set,
the file receives only the header and the entry row; `Total characters`
(and the rest of the summary) goes to stdout. -/
theorem C7_counterexample :
    mainReport ["a"] 0 false false true ["f.txt"]
        = Except.ok ⟨[Line.header false, Line.entry 1 1 "a" 1 none],
            [Line.totalChars 1, Line.totalOccurrences 1, Line.processedHeader,
             Line.filePath "f.txt"]⟩ ∧
    (mainReport ["a"] 0 false false true ["f.txt"]).toOption.map
        (fun r => (decide (Line.totalChars 1 ∈ r.fileLines),
                   decide (Line.totalChars 1 ∈ r.stdoutLines)))
      = some (false, true) :=
  ⟨rfl, by decide⟩

/-- C7 amended: when `-o` is given and the run reaches the report, the
named file receives exactly the header line plus one line per displayed
entry, while the entire trailing summary — `Total characters`, `Total
occurrences`, `Processed files:` and the file paths — is written to
standard output instead. -/
theorem C7_summary_to_stdout (results : List String) (number : Int)
    (reverse displayPercent : Bool) (processed : List String) (rep : ReportOut)
    (h : mainReport results number reverse displayPercent true processed
        = Except.ok rep) :
    (∃ elines,
        entryLines displayPercent
            ((displayedList results number reverse).map Prod.snd).sum
            (rankedEntries (displayedList results number reverse))
          = Except.ok elines ∧
        rep.fileLines = Line.header displayPercent :: elines ∧
        elines.length = (displayedList results number reverse).length) ∧
    rep.stdoutLines
      = Line.totalChars (displayedList results number reverse).length
          :: Line.totalOccurrences
              ((displayedList results number reverse).map Prod.snd).sum
          :: Line.processedHeader :: processed.map Line.filePath := by
  simp only [mainReport] at h
  cases he : entryLines displayPercent
      ((displayedList results number reverse).map Prod.snd).sum
      (rankedEntries (displayedList results number reverse)) with
  | error u => rw [he] at h; cases h
  | ok elines =>
    rw [he] at h
    simp only [if_true] at h
    cases h
    refine ⟨⟨elines, rfl, rfl, ?_⟩, rfl⟩
    rw [entryLines_length _ _ _ _ he]
    simp only [rankedEntries, rankLoop_length]

/-- Concrete instance of `C7_summary_to_stdout` on the stream `["a"]`. -/
theorem C7_witness :
    ([Line.totalChars 1, Line.totalOccurrences 1, Line.processedHeader] : List Line)
      = Line.totalChars (displayedList ["a"] 0 false).length
          :: Line.totalOccurrences ((displayedList ["a"] 0 false).map Prod.snd).sum
          :: Line.processedHeader :: List.map Line.filePath [] :=
  (C7_summary_to_stdout ["a"] 0 false false []
    ⟨[Line.header false, Line.entry 1 1 "a" 1 none],
     [Line.totalChars 1, Line.totalOccurrences 1, Line.processedHeader]⟩
    rfl).2

/-- C9: a run that extracted zero tokens still renders its report, for
every option combination: no `ZeroDivisionError` is possible — even in
percent mode — because the entry loop body never executes; the table is
exactly the header line; and the summary reports `Total characters: 0`
and `Total occurrences: 0` before the processed-files list (which can be
non-empty: successfully read files with zero matches). -/
theorem C9_empty_run_report (number : Int) (reverse displayPercent outputSet : Bool)
    (processed : List String) :
    mainReport [] number reverse displayPercent outputSet processed
      = Except.ok
          (if outputSet then
            ⟨[Line.header displayPercent],
             Line.totalChars 0 :: Line.totalOccurrences 0 :: Line.processedHeader
               :: processed.map Line.filePath⟩
           else
            ⟨[],
             Line.header displayPercent :: Line.totalChars 0 :: Line.totalOccurrences 0
               :: Line.processedHeader :: processed.map Line.filePath⟩) := by
  have hdisp : displayedList [] number reverse = [] := by
    by_cases h : number > 0 <;>
      simp [displayedList, most_common, counterItems, insertionKeys, h, pySort]
  simp [mainReport, hdisp, rankedEntries, rankLoop, entryLines]

end Stats
